import Mathlib

/-!
Shallow embedding of the `perl_version` Go package (cmburn/perl_version).

The package parses Perl version strings against two end-anchored regular
grammars ("lax" and "strict", `patterns.go`), reconstructs the matched
fragments into a `Version` value (`part_000`, `part_001`, `util.go`), and
exposes comparison, formatting and a JSON record codec (`perl_version.go`).

Both Go regexes are of the form `(?:alt1|alt2|...)$` and are evaluated with
`regexp.Longest()` (leftmost-longest).  Because of the `$` anchor, every
match ends at the end of the input, so a match starting at byte `i` is
exactly a full match of the alternation against the suffix `s[i..]`; the
leftmost-longest match is therefore the longest suffix fully matched by one
of the alternatives.  The alternatives of each grammar are pairwise
disjoint on full strings (they start with distinct character classes:
`undef`/`v`/digit/dot), and within each alternative the split into capture
groups is forced (digit runs are maximal because the following token can
never start with a digit), so the matchers below are deterministic
functions computing exactly the Go `FindStringSubmatch` result.  Unmatched
capture groups are represented, as in Go, by the empty string.
-/

/-- `c` is an ASCII decimal digit (the regex class `[0-9]`). -/
def isDigitChar (c : Char) : Bool := decide ('0' ≤ c) && decide (c ≤ '9')

/-- Numeric value of a decimal digit string (base 10, leading zeros fine).
Mirrors `mustParseInt64` (`util.go`), which is only ever applied to digit
runs captured by the regexes (on other inputs Go would panic; here the
fold simply ignores non-digits' high bits, and such calls are unreachable
from the matchers). -/
def digitsToNat (cs : List Char) : Nat :=
  cs.foldl (fun n c => 10 * n + (c.toNat - 48)) 0

/-- `mustParseInt64` from `util.go`, specialised to the digit strings the
program feeds it. -/
def mustParseInt64 (s : String) : Int := Int.ofNat (digitsToNat s.data)

/-- `strings.TrimPrefix(s, ".")` on character lists: drop one leading dot. -/
def trimDotL (cs : List Char) : List Char :=
  match cs with
  | [] => []
  | c :: rest => if c = '.' then rest else c :: rest

/-- `strings.TrimPrefix(s, "_")` on character lists: drop one leading underscore. -/
def trimUnderL (cs : List Char) : List Char :=
  match cs with
  | [] => []
  | c :: rest => if c = '_' then rest else c :: rest

/-- `strings.Split(s, ".")` on character lists (single-character separator). -/
def splitDotsAux : List Char → List Char → List (List Char)
  | [], cur => [cur.reverse]
  | c :: rest, cur =>
      if c = '.' then cur.reverse :: splitDotsAux rest []
      else splitDotsAux rest (c :: cur)

/-- `strings.Split(s, ".")`. -/
def splitDots (cs : List Char) : List (List Char) := splitDotsAux cs []

/-- `dottedToMinors` (`util.go`): trim one leading `.`, split on `.`,
parse each group as an integer. -/
def dottedToMinors (s : String) : List Int :=
  (splitDots (trimDotL s.data)).map (fun g => Int.ofNat (digitsToNat g))

/-- Right-pad a chunk with `'0'` to width 3 (the padding loop of
`getFractionValue`). -/
def padTo3 (cs : List Char) : List Char :=
  cs ++ List.replicate (3 - cs.length) '0'

/-- The chunking loop of `getFractionValue` (`util.go`): iterate over the
digit string with index `i`; whenever `i % 3 == 0 && i != 0` flush the
accumulated chunk; after the loop, pad the final chunk to width 3 and
append it.  (In Go the flushed chunks are written into a pre-sized array
and the padded final chunk into its last slot; for every reachable input
this is exactly append order.) -/
def fractionAux : List Char → Nat → List Char → List (List Char)
  | [], _, cur => [padTo3 cur]
  | c :: rest, i, cur =>
      if i % 3 = 0 ∧ i ≠ 0 then cur :: fractionAux rest (i + 1) [c]
      else fractionAux rest (i + 1) (cur ++ [c])

/-- `getFractionValue` (`util.go`): empty string yields no components;
otherwise trim one leading `.` and chunk the digits in groups of three,
right-padding the last group with zeros.  (Go panics on the input `"."`,
which is unreachable from this program; here it yields `[0]`.) -/
def getFractionValue (s : String) : List Int :=
  if s.data = [] then []
  else (fractionAux (trimDotL s.data) 0 []).map (fun g => Int.ofNat (digitsToNat g))

/-- `Version` (`perl_version.go`): original text, alpha flag, qv flag,
ordered integer components (field `version`). -/
structure Version where
  original : String
  alpha : Bool
  qv : Bool
  version : List Int
deriving DecidableEq, Repr

/-- The `LessThan` loop (`perl_version.go`): scan the common length; the
first differing index decides; exhausting the common length yields
`false`. -/
def ltAux : List Int → List Int → Bool
  | a :: as, b :: bs =>
      if a < b then true
      else if b < a then false
      else ltAux as bs
  | _, _ => false

/-- The `GreaterThan` loop (`perl_version.go`), mirrored. -/
def gtAux : List Int → List Int → Bool
  | a :: as, b :: bs =>
      if a > b then true
      else if b > a then false
      else gtAux as bs
  | _, _ => false

/-- `Version.LessThan`. -/
def Version.LessThan (v other : Version) : Bool := ltAux v.version other.version

/-- `Version.GreaterThan`. -/
def Version.GreaterThan (v other : Version) : Bool := gtAux v.version other.version

/-- `Version.Equal`: `!(v.LessThan(other) || v.GreaterThan(other))`. -/
def Version.Equal (v other : Version) : Bool :=
  !(v.LessThan other || v.GreaterThan other)

/-- `Version.NotEqual`. -/
def Version.NotEqual (v other : Version) : Bool := !(v.Equal other)

/-- `Version.LessThanOrEqual`. -/
def Version.LessThanOrEqual (v other : Version) : Bool :=
  v.Equal other || v.LessThan other

/-- `Version.GreaterThanOrEqual`. -/
def Version.GreaterThanOrEqual (v other : Version) : Bool :=
  v.Equal other || v.GreaterThan other

/-- `Version.Compare`: -1 if older, 1 if newer, 0 otherwise. -/
def Version.Compare (v other : Version) : Int :=
  if v.LessThan other then -1
  else if v.GreaterThan other then 1
  else 0

/-- `Version.Raw`: the original representation. -/
def Version.Raw (v : Version) : String := v.original

/-- `Version.Stringify`: `"0"` when the original text is `"undef"`,
otherwise the original text. -/
def Version.Stringify (v : Version) : String :=
  if v.original = "undef" then "0" else v.original

/-- `Version.IsAlpha`. -/
def Version.IsAlpha (v : Version) : Bool := v.alpha

/-- `Version.IsQv`. -/
def Version.IsQv (v : Version) : Bool := v.qv

/-- `Undef()` (`perl_version.go`): the distinguished undefined version. -/
def Undef : Version :=
  { original := "undef", alpha := false, qv := false, version := [0] }

/-- The anonymous struct used by `MarshalJSON`/`UnmarshalJSON`
(`perl_version.go`): a structural record with fields `original`, `alpha`,
`qv`, `version`.  The byte-level JSON rendering is done by Go's
`encoding/json` and is modelled by this record; the codec itself performs
only the field assignments below. -/
structure versionRecord where
  jOriginal : String
  jAlpha : Bool
  jQv : Bool
  jVersion : List Int
deriving DecidableEq, Repr

/-- `Version.MarshalJSON`: copy the four fields into the record. -/
def Version.MarshalJSON (v : Version) : versionRecord :=
  { jOriginal := v.original, jAlpha := v.alpha, jQv := v.qv, jVersion := v.version }

/-- `Version.UnmarshalJSON`: copy the four record fields back into a
`Version`; no re-parsing or validation. -/
def Version.UnmarshalJSON (obj : versionRecord) : Version :=
  { original := obj.jOriginal, alpha := obj.jAlpha, qv := obj.jQv,
    version := obj.jVersion }

/-!  ## The lax grammar (`patterns.go`, `part_000`)  -/

/-- The capture record of the lax dotted form (`laxDotted`, `part_000`).
Fields mirror submatches 3-8 of `LaxVersionRegex`: sub-pattern A is
`v laxIntR (?: laxDottedPR laxAlphaR? )?`, sub-pattern B is
`laxIntR? laxDotted2PR laxAlphaR?`. -/
structure laxDotted where
  integer : String
  dottedGroup : String
  alpha : String
  secondInteger : String
  secondDottedGroup : String
  secondAlpha : String
deriving DecidableEq, Repr

/-- The capture record of the lax decimal form (`laxDecimal`, `part_000`).
Fields mirror submatches 10-14 of `LaxVersionRegex`: alternative A is
`laxIntR (?: fractionR | \. )? laxAlphaR?`, alternative B is
`fractionR laxAlphaR?`. -/
structure laxDecimal where
  integer : String
  fraction : String
  alpha : String
  secondFraction : String
  secondAlpha : String
deriving DecidableEq, Repr

/-- The full lax capture record (`lax`, `part_000`): submatch 0
(`original`), submatch 1 (`undef`), submatch 2 (`dotted`), submatch 9
(`decimal`) and the nested capture records. -/
structure lax where
  original : String
  undef : String
  dotted : String
  dottedMatches : laxDotted
  decimal : String
  decimalMatches : laxDecimal
deriving DecidableEq, Repr

/-- Maximal run of `(?:\.[0-9]+)` groups: returns the consumed text, the
number of groups, and the rest.  Fuel is the list length (each group
consumes at least two characters). -/
def dotGroupsAux : Nat → List Char → List Char × Nat × List Char
  | 0, cs => ([], 0, cs)
  | fuel + 1, cs =>
      match cs with
      | '.' :: rest =>
          match rest.span isDigitChar with
          | ([], _) => ([], 0, cs)
          | (ds, r2) =>
              let (txt, n, r3) := dotGroupsAux fuel r2
              ('.' :: (ds ++ txt), n + 1, r3)
      | _ => ([], 0, cs)

/-- Maximal run of dotted groups `(?:\.[0-9]+)*`. -/
def dotGroups (cs : List Char) : List Char × Nat × List Char :=
  dotGroupsAux cs.length cs

/-- Full-string match of the lax decimal form
`laxIntR (?:fractionR|\.)? laxAlphaR? | fractionR laxAlphaR?`
(`laxDecimalFormR`, `patterns.go`).  The two alternatives are disjoint
(digit start vs. dot start); digit runs are maximal; the optional
`(?:fractionR|\.)` takes the capturing fraction exactly when the dot is
followed by a digit. -/
def matchLaxDecimal (cs : List Char) : Option laxDecimal :=
  match cs with
  | [] => none
  | c :: _ =>
    if isDigitChar c then
      -- alternative A: integer, optional fraction or bare dot, optional alpha
      let (intD, rest) := cs.span isDigitChar
      let (frac, rest2) :=
        match rest with
        | '.' :: r =>
            match r.span isDigitChar with
            | ([], _) => (("" : String), r)          -- bare `\.` consumed
            | (ds, r2) => (String.mk ('.' :: ds), r2) -- capturing fraction
        | _ => ("", rest)
      match rest2 with
      | [] => some { integer := ⟨intD⟩, fraction := frac, alpha := "",
                     secondFraction := "", secondAlpha := "" }
      | '_' :: r =>
          match r.span isDigitChar with
          | ([], _) => none
          | (ds, r2) =>
              if r2 = [] then
                some { integer := ⟨intD⟩, fraction := frac,
                       alpha := ⟨'_' :: ds⟩, secondFraction := "",
                       secondAlpha := "" }
              else none
      | _ => none
    else if c = '.' then
      -- alternative B: leading-dot fraction, optional alpha
      match cs with
      | '.' :: r =>
          match r.span isDigitChar with
          | ([], _) => none
          | (ds, r2) =>
              match r2 with
              | [] => some { integer := "", fraction := "", alpha := "",
                             secondFraction := ⟨'.' :: ds⟩, secondAlpha := "" }
              | '_' :: r3 =>
                  match r3.span isDigitChar with
                  | ([], _) => none
                  | (as, r4) =>
                      if r4 = [] then
                        some { integer := "", fraction := "", alpha := "",
                               secondFraction := ⟨'.' :: ds⟩,
                               secondAlpha := ⟨'_' :: as⟩ }
                      else none
              | _ => none
      | _ => none
    else none

/-- Full-string match of the lax dotted form
`v laxIntR (?:laxDottedPR laxAlphaR?)? | laxIntR? laxDotted2PR laxAlphaR?`
(`laxDottedFormR`, `patterns.go`).  Sub-pattern A starts with `v`,
sub-pattern B with a digit or dot; they are disjoint. -/
def matchLaxDotted (cs : List Char) : Option laxDotted :=
  match cs with
  | 'v' :: rest =>
      -- sub-pattern A
      (match rest.span isDigitChar with
       | ([], _) => none
       | (intD, r2) =>
         match r2 with
         | [] => some { integer := ⟨intD⟩, dottedGroup := "", alpha := "",
                        secondInteger := "", secondDottedGroup := "",
                        secondAlpha := "" }
         | _ =>
           let (txt, n, r3) := dotGroups r2
           if n = 0 then none
           else
             match r3 with
             | [] => some { integer := ⟨intD⟩, dottedGroup := ⟨txt⟩,
                            alpha := "", secondInteger := "",
                            secondDottedGroup := "", secondAlpha := "" }
             | '_' :: r4 =>
                 match r4.span isDigitChar with
                 | ([], _) => none
                 | (ds, r5) =>
                     if r5 = [] then
                       some { integer := ⟨intD⟩, dottedGroup := ⟨txt⟩,
                              alpha := ⟨'_' :: ds⟩, secondInteger := "",
                              secondDottedGroup := "", secondAlpha := "" }
                     else none
             | _ => none)
  | _ =>
      -- sub-pattern B
      let (intD, r1) := cs.span isDigitChar
      let (txt, n, r2) := dotGroups r1
      if n < 2 then none
      else
        match r2 with
        | [] => some { integer := "", dottedGroup := "", alpha := "",
                       secondInteger := ⟨intD⟩, secondDottedGroup := ⟨txt⟩,
                       secondAlpha := "" }
        | '_' :: r3 =>
            match r3.span isDigitChar with
            | ([], _) => none
            | (ds, r4) =>
                if r4 = [] then
                  some { integer := "", dottedGroup := "", alpha := "",
                         secondInteger := ⟨intD⟩, secondDottedGroup := ⟨txt⟩,
                         secondAlpha := ⟨'_' :: ds⟩ }
                else none
        | _ => none

/-- An all-empty `laxDotted` record (unmatched sub-pattern). -/
def laxDottedEmpty : laxDotted :=
  { integer := "", dottedGroup := "", alpha := "", secondInteger := "",
    secondDottedGroup := "", secondAlpha := "" }

/-- An all-empty `laxDecimal` record (unmatched sub-pattern). -/
def laxDecimalEmpty : laxDecimal :=
  { integer := "", fraction := "", alpha := "", secondFraction := "",
    secondAlpha := "" }

/-- Full-string match of `LaxVersionRegex`'s alternation
`laxUndefR | laxDottedFormR | laxDecimalFormR`, assembled into the `lax`
record exactly as `laxVersion` (`part_000`) assembles the submatch
array. -/
def matchLax (cs : List Char) : Option lax :=
  if cs = "undef".data then
    some { original := ⟨cs⟩, undef := "undef", dotted := "",
           dottedMatches := laxDottedEmpty, decimal := "",
           decimalMatches := laxDecimalEmpty }
  else
    match matchLaxDotted cs with
    | some d =>
        some { original := ⟨cs⟩, undef := "", dotted := ⟨cs⟩,
               dottedMatches := d, decimal := "",
               decimalMatches := laxDecimalEmpty }
    | none =>
        match matchLaxDecimal cs with
        | some d =>
            some { original := ⟨cs⟩, undef := "", dotted := "",
                   dottedMatches := laxDottedEmpty, decimal := ⟨cs⟩,
                   decimalMatches := d }
        | none => none

/-!  ## The strict grammar (`patterns.go`, `part_001`)  -/

/-- Capture record of the strict decimal form (`strictDecimalForm`,
`part_001`): `(0|[1-9][0-9]*)` and optional `(\.[0-9]+)`. -/
structure strictDecimalForm where
  integerPart : String
  fractionPart : String
deriving DecidableEq, Repr

/-- Capture record of the strict dotted form (`strictDottedForm`,
`part_001`): `v`, `(0|[1-9][0-9]*)` and `((?:\.[0-9]{1,3}){2,})`. -/
structure strictDottedForm where
  integerPart : String
  dottedGroup : String
deriving DecidableEq, Repr

/-- Full strict capture record (`strict`, `part_001`). -/
structure strict where
  original : String
  decimal : String
  decimalMatches : strictDecimalForm
  dotted : String
  dottedMatches : strictDottedForm
deriving DecidableEq, Repr

/-- `(0|[1-9][0-9]*)`: a single `0`, or a maximal digit run not starting
with `0`.  Returns the captured run and the rest. -/
def strictInt (cs : List Char) : Option (List Char × List Char) :=
  match cs with
  | '0' :: rest => some (['0'], rest)
  | c :: _ =>
      if isDigitChar c then some (cs.span isDigitChar) else none
  | [] => none

/-- Full-string check of `(?:\.[0-9]{1,3}){n,}` with at least `need` more
groups: every dot-separated run must have 1-3 digits and the string must
consist solely of such groups. -/
def strictDotRunAux : Nat → Nat → List Char → Bool
  | 0, _, _ => false
  | fuel + 1, need, cs =>
      match cs with
      | [] => need = 0
      | '.' :: rest =>
          match rest.span isDigitChar with
          | ([], _) => false
          | (ds, r2) =>
              if ds.length ≤ 3 then strictDotRunAux fuel (need - 1) r2
              else false
      | _ => false

/-- Full-string match of the strict decimal form
`(0|[1-9][0-9]*)(\.[0-9]+)?` (`strictDecimalFormR`). -/
def matchStrictDecimal (cs : List Char) : Option strictDecimalForm :=
  match strictInt cs with
  | none => none
  | some (intD, rest) =>
      match rest with
      | [] => some { integerPart := ⟨intD⟩, fractionPart := "" }
      | '.' :: r =>
          match r.span isDigitChar with
          | ([], _) => none
          | (ds, r2) =>
              if r2 = [] then
                some { integerPart := ⟨intD⟩, fractionPart := ⟨'.' :: ds⟩ }
              else none
      | _ => none

/-- Full-string match of the strict dotted form
`v(0|[1-9][0-9]*)((?:\.[0-9]{1,3}){2,})` (`strictDottedFormR`). -/
def matchStrictDotted (cs : List Char) : Option strictDottedForm :=
  match cs with
  | 'v' :: rest =>
      (match strictInt rest with
       | none => none
       | some (intD, r2) =>
           if strictDotRunAux (r2.length + 1) 2 r2 then
             some { integerPart := ⟨intD⟩, dottedGroup := ⟨r2⟩ }
           else none)
  | _ => none

/-- An all-empty `strictDecimalForm`. -/
def strictDecimalEmpty : strictDecimalForm := { integerPart := "", fractionPart := "" }

/-- An all-empty `strictDottedForm`. -/
def strictDottedEmpty : strictDottedForm := { integerPart := "", dottedGroup := "" }

/-- Full-string match of `StrictVersionRegex`'s alternation
`strictDecimalFormR | strictDottedFormR`, assembled into the `strict`
record exactly as `strictVersion` (`part_001`) assembles the submatch
array. -/
def matchStrict (cs : List Char) : Option strict :=
  match matchStrictDecimal cs with
  | some d =>
      some { original := ⟨cs⟩, decimal := ⟨cs⟩, decimalMatches := d,
             dotted := "", dottedMatches := strictDottedEmpty }
  | none =>
      match matchStrictDotted cs with
      | some d =>
          some { original := ⟨cs⟩, decimal := "",
                 decimalMatches := strictDecimalEmpty, dotted := ⟨cs⟩,
                 dottedMatches := d }
      | none => none

/-- Leftmost-longest end-anchored search: try the whole string, then each
shorter suffix.  This is exactly `FindStringSubmatch` for a pattern of the
form `(?:...)$` under `regexp.Longest()`. -/
def findMap {α : Type} (m : List Char → Option α) : List Char → Option α
  | [] => m []
  | c :: cs =>
      match m (c :: cs) with
      | some a => some a
      | none => findMap m cs

/-- `laxRegexp.FindStringSubmatch` assembled into the `lax` record. -/
def laxFind (s : String) : Option lax := findMap matchLax s.data

/-- `strictRegexp.FindStringSubmatch` assembled into the `strict` record. -/
def strictFind (s : String) : Option strict := findMap matchStrict s.data

/-!  ## Value reconstruction (`part_000`, `part_001`)  -/

/-- The errors of this package: `errAlphaWithoutDecimal` (`util.go`) and
the generic invalid-version error built in `Parse` (`perl_version.go`). -/
inductive PvError where
  | alphaWithoutDecimal : PvError
  | invalidVersion : String → PvError
deriving DecidableEq, Repr

/-- The Go idiom `values := make([]int64, n); copy(values, src)` for the
slots after index 0: copies `min(dstLen, src.length)` elements and leaves
the remaining slots zero. -/
def copyInto (dstLen : Nat) (src : List Int) : List Int :=
  src.take dstLen ++ List.replicate (dstLen - src.length) 0

/-- Whether the last character of the original text is `.`
(`original[len(original)-1] == '.'` in `laxDecimal.toPerlVersionA`;
Go would panic on an empty string, which cannot occur since the matched
span is never empty). -/
def lastIsDot (s : String) : Bool := s.data.getLast? = some '.'

/-- `laxDotted.toPerlVersionA` (`part_000`): `v`-prefixed sub-form.  Alpha
digits are appended to the dotted-group text before splitting; the value
count is padded up to 3 (`numValues < 3` check); the Go
`copy(values[1:], minors)` drops minors beyond slot `numValues-1`. -/
def laxDotted.toPerlVersionA (d : laxDotted) (original : String) : Version :=
  let dotted := d.dottedGroup ++ (if d.alpha ≠ "" then ⟨trimUnderL d.alpha.data⟩ else "")
  let minors := if dotted ≠ "" then dottedToMinors dotted else []
  let numValues := if minors.length < 3 then 3 else minors.length
  { original := original, alpha := d.alpha ≠ "", qv := true,
    version := mustParseInt64 d.integer :: copyInto (numValues - 1) minors }

/-- `laxDotted.toPerlVersionB` (`part_000`): dotted sub-form without `v`.
A leading slot is added when an explicit integer is present or the dotted
group begins with `.` with no integer (implied zero); `qv` is set exactly
when the resulting value count is 3. -/
def laxDotted.toPerlVersionB (d : laxDotted) (original : String) : Version :=
  let dotted := d.secondDottedGroup ++
    (if d.secondAlpha ≠ "" then (⟨trimUnderL d.secondAlpha.data⟩ : String) else "")
  let minors := dottedToMinors dotted
  let impliedZero := d.secondDottedGroup.data.head? = some '.' ∧ d.secondInteger = ""
  let numValues := minors.length +
    (if d.secondInteger ≠ "" ∨ impliedZero then 1 else 0)
  let head : Int := if d.secondInteger ≠ "" then mustParseInt64 d.secondInteger else 0
  { original := original, alpha := d.secondAlpha ≠ "",
    qv := numValues = 3,
    version := if numValues = 0 then [] else head :: copyInto (numValues - 1) minors }

/-- `laxDotted.toPerlVersion` (`part_000`): dispatch on which sub-pattern
captured.  The final branch is a Go `panic("unreachable")`; the placeholder
value keeps the function total and is unreachable from the matcher. -/
def laxDotted.toPerlVersion (d : laxDotted) (original : String) : Version :=
  if d.integer ≠ "" then d.toPerlVersionA original
  else if d.secondDottedGroup ≠ "" then d.toPerlVersionB original
  else { original := original, alpha := false, qv := false, version := [0] }

/-- `laxDecimal.toPerlVersionA` (`part_000`): decimal sub-form with a
leading integer.  Errors with `errAlphaWithoutDecimal` exactly when an
alpha suffix is present and the fraction is empty; otherwise alpha digits
are appended to the fraction before grouping, and a trailing `.` with no
fraction appends one zero component. -/
def laxDecimal.toPerlVersionA (d : laxDecimal) (original : String) :
    Except PvError Version :=
  if d.alpha ≠ "" ∧ d.fraction = "" then .error .alphaWithoutDecimal
  else
    let fractionStr := d.fraction ++
      (if d.alpha ≠ "" then (⟨trimUnderL d.alpha.data⟩ : String) else "")
    let fractions := getFractionValue fractionStr
    let impliedZeroEnd := lastIsDot original ∧ d.fraction = ""
    .ok { original := original, alpha := d.alpha ≠ "", qv := false,
          version := mustParseInt64 d.integer ::
            (fractions ++ if impliedZeroEnd then [(0 : Int)] else []) }

/-- `laxDecimal.toPerlVersionB` (`part_000`): leading-dot decimal sub-form;
an implied zero leads the components.  (Go panics when the fraction chunks
come back nil, which cannot happen since `secondFraction` is nonempty.) -/
def laxDecimal.toPerlVersionB (d : laxDecimal) (original : String) : Version :=
  let fractionStr := d.secondFraction ++
    (if d.secondAlpha ≠ "" then (⟨trimUnderL d.secondAlpha.data⟩ : String) else "")
  let fractions := getFractionValue fractionStr
  { original := original, alpha := d.secondAlpha ≠ "", qv := false,
    version := 0 :: fractions }

/-- `laxDecimal.toPerlVersion` (`part_000`): dispatch on which alternative
captured; the final branch is a Go `panic("unreachable")`, modelled by an
unreachable placeholder. -/
def laxDecimal.toPerlVersion (d : laxDecimal) (original : String) :
    Except PvError Version :=
  if d.integer ≠ "" then d.toPerlVersionA original
  else if d.secondFraction ≠ "" then .ok (d.toPerlVersionB original)
  else .ok { original := original, alpha := false, qv := false, version := [0] }

/-- `lax.toPerlVersion` (`part_000`): undef literal, dotted form, or
decimal form; the final branch is a Go `panic("unreachable")`. -/
def lax.toPerlVersion (d : lax) : Except PvError Version :=
  if d.undef ≠ "" then
    .ok { original := d.original, alpha := false, qv := false, version := [0] }
  else if d.dotted ≠ "" then
    .ok (d.dottedMatches.toPerlVersion d.original)
  else if d.decimal ≠ "" then
    d.decimalMatches.toPerlVersion d.original
  else .ok { original := d.original, alpha := false, qv := false, version := [0] }

/-- `laxVersion` (`part_000`): reconstruct from the assembled captures. -/
def laxVersion (l : lax) : Except PvError Version := l.toPerlVersion

/-- `strictDecimalForm.toPerlVersion` (`part_001`). -/
def strictDecimalForm.toPerlVersion (d : strictDecimalForm) (original : String) :
    Version :=
  let trimmed : String := ⟨trimDotL d.fractionPart.data⟩
  let fracValues := getFractionValue trimmed
  { original := original, alpha := false, qv := false,
    version := mustParseInt64 d.integerPart :: fracValues }

/-- `strictDottedForm.toPerlVersion` (`part_001`): split the dotted group
and parse each part directly (no 3-digit grouping). -/
def strictDottedForm.toPerlVersion (d : strictDottedForm) (original : String) :
    Version :=
  let trimmed : List Char := trimDotL d.dottedGroup.data
  let minors := splitDots trimmed
  { original := original, alpha := false, qv := true,
    version := mustParseInt64 d.integerPart ::
      minors.map (fun g => Int.ofNat (digitsToNat g)) }

/-- `strict.toPerlVersion` (`part_001`): decimal or dotted; the final
branch is a Go `panic` ("strictRegexp matched but no version found"). -/
def strict.toPerlVersion (d : strict) : Version :=
  if d.decimal ≠ "" then d.decimalMatches.toPerlVersion d.original
  else if d.dotted ≠ "" then d.dottedMatches.toPerlVersion d.original
  else { original := d.original, alpha := false, qv := false, version := [0] }

/-- `strictVersion` (`part_001`). -/
def strictVersion (d : strict) : Version := d.toPerlVersion

/-- `Parse` (`perl_version.go`): run both grammars; lax-only propagates
lax's result; when both match and the lax span is strictly longer, attempt
lax and on error fall through to strict; otherwise use strict; neither
matching is the invalid-version error. -/
def Parse (version : String) : Except PvError Version :=
  match laxFind version, strictFind version with
  | some lm, none => laxVersion lm
  | some lm, some sm =>
      if sm.original.length < lm.original.length then
        match laxVersion lm with
        | .ok v => .ok v
        | .error _ => .ok (strictVersion sm)
      else .ok (strictVersion sm)
  | none, some sm => .ok (strictVersion sm)
  | none, none => .error (.invalidVersion version)

/-- `IsValid` (`perl_version.go`). -/
def IsValid (version : String) : Bool :=
  match Parse version with
  | .ok _ => true
  | .error _ => false

/-!  ## Theorems  -/

/-- C8: decoding the encoded record (`UnmarshalJSON` after `MarshalJSON`)
reproduces a `Version` field-for-field identical to the input — same
original text, same alpha flag, same qv flag, same components — for every
`Version` value, including those whose `original` is not a string `Parse`
would accept; the codec performs no re-parsing or re-validation. -/
theorem codec_roundtrip_identity (v : Version) :
    Version.UnmarshalJSON (Version.MarshalJSON v) = v := by
  cases v
  rfl

/-- C9: `Stringify` returns `"0"` for every `Version` whose `original`
field is the string `"undef"` — whatever its alpha, qv and components
fields are — and returns the original text unchanged for every other
`original`; the test is on the string, not on the identity of the
distinguished undefined value. -/
theorem stringify_tests_original_string :
    (∀ v : Version, v.original = "undef" → v.Stringify = "0") ∧
    (∀ v : Version, v.original ≠ "undef" → v.Stringify = v.original) := by
  constructor
  · intro v h
    simp [Version.Stringify, h]
  · intro v h
    simp [Version.Stringify, h]

/-- Witness for C9: a codec-style value whose `original` is `"undef"` but
whose other fields differ from the distinguished undefined value still
stringifies to `"0"`, and an ordinary value stringifies to its text. -/
theorem stringify_tests_original_string_witness :
    (Version.mk "undef" true true [9, 9]).Stringify = "0" ∧
    (Version.mk "1.2" false false [1, 200]).Stringify = "1.2" := by
  constructor
  · exact stringify_tests_original_string.1 (Version.mk "undef" true true [9, 9]) rfl
  · exact stringify_tests_original_string.2 (Version.mk "1.2" false false [1, 200])
      (by decide)

/-- C10: comparison results depend only on the `version` components
sequences: replacing `original`, `alpha` and `qv` arbitrarily on both
sides changes none of `Compare`, `LessThan`, `GreaterThan`, `Equal`. -/
theorem comparisons_noninterference :
    ∀ v w v' w' : Version, v'.version = v.version → w'.version = w.version →
      v'.Compare w' = v.Compare w ∧
      v'.LessThan w' = v.LessThan w ∧
      v'.GreaterThan w' = v.GreaterThan w ∧
      v'.Equal w' = v.Equal w := by
  intro v w v' w' hv hw
  simp [Version.Compare, Version.LessThan, Version.GreaterThan, Version.Equal,
    hv, hw]

/-- Witness for C10: concrete two-run instance with different labels and
flags but the same components. -/
theorem comparisons_noninterference_witness :
    (Version.mk "a" true true [1, 2]).Compare (Version.mk "b" false true [1, 3]) =
      (Version.mk "x" false false [1, 2]).Compare (Version.mk "y" true false [1, 3]) := by
  exact (comparisons_noninterference (Version.mk "x" false false [1, 2])
    (Version.mk "y" true false [1, 3]) (Version.mk "a" true true [1, 2])
    (Version.mk "b" false true [1, 3]) rfl rfl).1

/-- The `GreaterThan` loop is the `LessThan` loop with swapped arguments. -/
theorem gtAux_swap (as : List Int) : ∀ bs, gtAux bs as = ltAux as bs := by
  induction as with
  | nil => intro bs; cases bs <;> simp [ltAux, gtAux]
  | cons a as ih =>
      intro bs
      cases bs with
      | nil => simp [ltAux, gtAux]
      | cons b bs => simp only [ltAux, gtAux, gt_iff_lt, ih bs]

/-- The two scan loops cannot both report `true`. -/
theorem ltAux_gtAux_exclusive (as : List Int) :
    ∀ bs, ltAux as bs = true → gtAux as bs = false := by
  induction as with
  | nil => intro bs h; cases bs <;> simp [ltAux] at h
  | cons a as ih =>
      intro bs h
      cases bs with
      | nil => simp [ltAux] at h
      | cons b bs =>
          simp only [ltAux] at h
          simp only [gtAux]
          rcases lt_trichotomy a b with hab | hab | hab
          · rw [if_neg (by omega : ¬ a > b), if_pos (by omega : b > a)]
          · subst hab
            rw [if_neg (lt_irrefl a), if_neg (lt_irrefl a)] at h
            rw [if_neg (by omega : ¬ a > a), if_neg (by omega : ¬ a > a)]
            exact ih bs h
          · rw [if_neg (by omega : ¬ a < b), if_pos hab] at h
            exact absurd h (by simp)

/-- Both loops report `false` exactly when the two lists agree on their
common-length front. -/
theorem ltAux_gtAux_eq_iff_take (as : List Int) :
    ∀ bs, (ltAux as bs = false ∧ gtAux as bs = false) ↔
      as.take (min as.length bs.length) = bs.take (min as.length bs.length) := by
  induction as with
  | nil => intro bs; cases bs <;> simp [ltAux, gtAux]
  | cons a as ih =>
      intro bs
      cases bs with
      | nil => simp [ltAux, gtAux]
      | cons b bs =>
          simp only [ltAux, gtAux, List.length_cons, Nat.succ_min_succ,
            List.take_succ_cons, List.cons.injEq]
          rcases lt_trichotomy a b with hab | hab | hab
          · rw [if_pos hab, if_neg (by omega : ¬ a > b),
              if_pos (by omega : b > a)]
            simp [hab.ne]
          · subst hab
            rw [if_neg (lt_irrefl a), if_neg (lt_irrefl a),
              if_neg (by omega : ¬ a > a), if_neg (by omega : ¬ a > a)]
            simp [ih bs]
          · rw [if_neg (by omega : ¬ a < b), if_pos hab,
              if_pos (by omega : a > b)]
            simp [hab.ne']

/-- C6: comparison is prefix-limited lexicographic.  `Equal` holds exactly
when the components agree on every index of the common length (stated via
`List.take` of the minimum length); consequently `Equal` is reflexive and
symmetric but not transitive — `[5]` is `Equal` to both `[5,1]` and
`[5,2]` while those two are `NotEqual` — and `Compare` returns `-1`, `0`,
`1` exactly when `LessThan`, `Equal`, `GreaterThan` hold respectively. -/
theorem comparison_prefix_limited_lex :
    (∀ v w : Version,
        v.Equal w = true ↔
          v.version.take (min v.version.length w.version.length) =
            w.version.take (min v.version.length w.version.length)) ∧
    (∀ v : Version, v.Equal v = true) ∧
    (∀ v w : Version, v.Equal w = w.Equal v) ∧
    ((Version.mk "5" false false [5]).Equal (Version.mk "5.1" false false [5, 1]) = true ∧
     (Version.mk "5" false false [5]).Equal (Version.mk "5.2" false false [5, 2]) = true ∧
     (Version.mk "5.1" false false [5, 1]).NotEqual (Version.mk "5.2" false false [5, 2]) = true) ∧
    (∀ v w : Version,
        (v.Compare w = -1 ↔ v.LessThan w = true) ∧
        (v.Compare w = 0 ↔ v.Equal w = true) ∧
        (v.Compare w = 1 ↔ v.GreaterThan w = true)) := by
  refine ⟨?_, ?_, ?_, by decide, ?_⟩
  · intro v w
    simp only [Version.Equal, Version.LessThan, Version.GreaterThan,
      Bool.not_eq_true', Bool.or_eq_false_iff]
    exact ltAux_gtAux_eq_iff_take v.version w.version
  · intro v
    simp only [Version.Equal, Version.LessThan, Version.GreaterThan,
      Bool.not_eq_true', Bool.or_eq_false_iff]
    exact (ltAux_gtAux_eq_iff_take v.version v.version).2 rfl
  · intro v w
    simp only [Version.Equal, Version.LessThan, Version.GreaterThan]
    rw [gtAux_swap, ← gtAux_swap v.version, Bool.or_comm]
  · intro v w
    simp only [Version.Compare, Version.Equal, Version.LessThan,
      Version.GreaterThan]
    by_cases h1 : ltAux v.version w.version = true
    · have h2 := ltAux_gtAux_exclusive _ _ h1
      simp only [h1, h2]
      decide
    · have h1' : ltAux v.version w.version = false := by
        simpa using h1
      simp only [h1']
      by_cases h2 : gtAux v.version w.version = true
      · simp only [h2]; decide
      · have h2' : gtAux v.version w.version = false := by
          simpa using h2
        simp only [h2']; decide

/-- Witness for C6: the characterization, symmetry and `Compare`
consistency at concrete values. -/
theorem comparison_prefix_limited_lex_witness :
    ((Version.mk "5" false false [5]).Equal (Version.mk "5.1" false false [5, 1]) = true ↔
      ([5] : List Int).take (min 1 2) = ([5, 1] : List Int).take (min 1 2)) ∧
    (Version.mk "5.1" false false [5, 1]).Compare (Version.mk "5.2" false false [5, 2]) = -1 := by
  constructor
  · exact comparison_prefix_limited_lex.1 (Version.mk "5" false false [5])
      (Version.mk "5.1" false false [5, 1])
  · exact (comparison_prefix_limited_lex.2.2.2.2 (Version.mk "5.1" false false [5, 1])
      (Version.mk "5.2" false false [5, 2])).1.mpr (by decide)

/-- The fraction-grouping algorithm as worded by the specification: split
the digit string into maximal left-to-right chunks of exactly 3, right-pad
a final short chunk with `'0'` to width 3.  (This definition follows the
spec's words; `fractionAux` above follows the Go loop.) -/
def specChunks (ds : List Char) : List (List Char) :=
  if ds.isEmpty then []
  else if _h : ds.length ≤ 3 then [padTo3 ds]
  else ds.take 3 :: specChunks (ds.drop 3)
termination_by ds.length
decreasing_by simp [List.length_drop]; omega

/-- Spec-worded fraction components: chunk, then parse each chunk as a
base-10 integer. -/
def specFraction (ds : List Char) : List Int :=
  (specChunks ds).map (fun g => Int.ofNat (digitsToNat g))

/-- The Go chunking loop's index only matters modulo 3 once it is
positive. -/
theorem fractionAux_shift (rest : List Char) :
    ∀ (i : Nat) (cur : List Char), i ≠ 0 →
      fractionAux rest (i + 3) cur = fractionAux rest i cur := by
  induction rest with
  | nil => intro i cur _; rfl
  | cons c rest ih =>
      intro i cur hi
      simp only [fractionAux, Nat.add_mod_right]
      by_cases h3 : i % 3 = 0
      · rw [if_pos ⟨h3, by omega⟩, if_pos ⟨h3, hi⟩]
        have : i + 3 + 1 = (i + 1) + 3 := by omega
        rw [this, ih (i + 1) [c] (by omega)]
      · rw [if_neg (by tauto), if_neg (by tauto)]
        have : i + 3 + 1 = (i + 1) + 3 := by omega
        rw [this, ih (i + 1) (cur ++ [c]) (by omega)]

/-- On a nonempty digit string, the Go chunking loop computes exactly the
spec-worded chunks. -/
theorem fractionAux_eq_specChunks :
    ∀ (n : Nat) (ds : List Char), ds.length ≤ n → ds ≠ [] →
      fractionAux ds 0 [] = specChunks ds := by
  intro n
  induction n with
  | zero =>
      intro ds hlen hne
      cases ds with
      | nil => exact absurd rfl hne
      | cons c cs => simp at hlen
  | succ n ih =>
      intro ds hlen hne
      rcases ds with _ | ⟨a, _ | ⟨b, _ | ⟨c, _ | ⟨d, rest⟩⟩⟩⟩
      · exact absurd rfl hne
      · rw [specChunks]; rfl
      · rw [specChunks]; rfl
      · rw [specChunks]; rfl
      · -- length ≥ 4: one full chunk is flushed, then the loop restarts
        have lhs :
            fractionAux (a :: b :: c :: d :: rest) 0 [] =
              [a, b, c] :: fractionAux rest 4 [d] := by
          simp [fractionAux]
        have shift : fractionAux rest 4 [d] = fractionAux rest 1 [d] := by
          have h := fractionAux_shift rest 1 [d] one_ne_zero
          norm_num at h
          exact h
        have restart : fractionAux (d :: rest) 0 [] = fractionAux rest 1 [d] := by
          simp [fractionAux]
        have tail :
            fractionAux (d :: rest) 0 [] = specChunks (d :: rest) := by
          apply ih (d :: rest)
          · simp at hlen ⊢
            omega
          · simp
        have hlen4 : ¬((a :: b :: c :: d :: rest).length ≤ 3) := by
          simp only [List.length_cons]
          omega
        have rhs : specChunks (a :: b :: c :: d :: rest) =
            [a, b, c] :: specChunks (d :: rest) := by
          rw [specChunks, if_neg (by simp), dif_neg hlen4]
          simp
        rw [lhs, shift, ← restart, tail, rhs]

/-- C2: for every fractional digit string, `getFractionValue` splits the
digits into maximal left-to-right chunks of exactly 3, right-pads a short
final chunk with `'0'` to width 3 and parses each chunk as a base-10
integer (the spec-worded `specFraction`); in particular `"0023"` yields
`[2, 300]`, `"2"` yields `[200]`, `"002"` yields `[2]` and `"002003004"`
yields `[2, 3, 4]`. -/
theorem fraction_grouping_spec :
    (∀ ds : List Char, (∀ c ∈ ds, isDigitChar c = true) →
        getFractionValue ⟨ds⟩ = specFraction ds) ∧
    getFractionValue "0023" = [2, 300] ∧
    getFractionValue "2" = [200] ∧
    getFractionValue "002" = [2] ∧
    getFractionValue "002003004" = [2, 3, 4] := by
  refine ⟨?_, rfl, rfl, rfl, rfl⟩
  intro ds hd
  cases ds with
  | nil =>
      show ([] : List Int) = specFraction []
      simp only [specFraction]
      rw [specChunks]
      simp
  | cons c cs =>
      have hc := hd c (List.mem_cons_self c cs)
      have hcdot : c ≠ '.' := by
        intro hcd
        subst hcd
        simp [isDigitChar] at hc
      have hval : getFractionValue ⟨c :: cs⟩ =
          (fractionAux (trimDotL (c :: cs)) 0 []).map
            (fun g => Int.ofNat (digitsToNat g)) := by
        simp [getFractionValue]
      have htrim : trimDotL (c :: cs) = c :: cs := by
        simp [trimDotL, hcdot]
      rw [hval, htrim,
        fractionAux_eq_specChunks (c :: cs).length (c :: cs) le_rfl (by simp)]
      rfl

/-- Witness for C2: the general grouping statement applied to the digit
string `"0023"`. -/
theorem fraction_grouping_spec_witness :
    (∀ c ∈ ['0', '0', '2', '3'], isDigitChar c = true) ∧
      getFractionValue ⟨['0', '0', '2', '3']⟩ = specFraction ['0', '0', '2', '3'] :=
  ⟨by decide, fraction_grouping_spec.1 ['0', '0', '2', '3'] (by decide)⟩

/-- C4: lax decimal reconstruction with a leading integer fails with the
alpha-without-decimal error exactly when an alpha suffix is present and
the fraction is empty; that is the only error it can raise; and when both
an alpha suffix and a fraction are present, the alpha digits are appended
to the fractional digit string before 3-digit grouping. -/
theorem lax_decimal_alpha_error_iff :
    ∀ (d : laxDecimal) (o : String),
      (d.toPerlVersionA o = .error .alphaWithoutDecimal ↔
        d.alpha ≠ "" ∧ d.fraction = "") ∧
      (∀ e, d.toPerlVersionA o = .error e → e = .alphaWithoutDecimal) ∧
      (d.alpha ≠ "" → d.fraction ≠ "" →
        d.toPerlVersionA o = .ok
          { original := o, alpha := true, qv := false,
            version := mustParseInt64 d.integer ::
              getFractionValue (d.fraction ++ ⟨trimUnderL d.alpha.data⟩) }) := by
  intro d o
  unfold laxDecimal.toPerlVersionA
  by_cases h : d.alpha ≠ "" ∧ d.fraction = ""
  · rw [if_pos h]
    refine ⟨⟨fun _ => h, fun _ => rfl⟩, ?_, ?_⟩
    · intro e he
      simpa using he.symm
    · intro _ hf
      exact absurd h.2 hf
  · rw [if_neg h]
    refine ⟨⟨fun he => ?_, fun hh => absurd hh h⟩, ?_, ?_⟩
    · simp at he
    · intro e he
      simp at he
    · intro ha hf
      simp [ha, hf]

/-- Witness for C4: the error case at the captures of `"1_0"` and the
append-before-grouping case at the captures of `"1.02_03"`. -/
theorem lax_decimal_alpha_error_iff_witness :
    laxDecimal.toPerlVersionA ⟨"1", "", "_0", "", ""⟩ "1_0" =
      .error .alphaWithoutDecimal ∧
    laxDecimal.toPerlVersionA ⟨"1", ".02", "_03", "", ""⟩ "1.02_03" =
      .ok { original := "1.02_03", alpha := true, qv := false,
            version := [1, 20, 300] } := by
  constructor
  · exact (lax_decimal_alpha_error_iff ⟨"1", "", "_0", "", ""⟩ "1_0").1.mpr
      (by decide)
  · have h := (lax_decimal_alpha_error_iff ⟨"1", ".02", "_03", "", ""⟩
      "1.02_03").2.2 (by decide) (by decide)
    rw [h]
    rfl

/-- The `make`/`copy` idiom always fills exactly `n` slots. -/
theorem qvLengthAux (n : Nat) (hd : Int) (ms : List Int) :
    (decide (n = 3) = true) ↔
      ((if n = 0 then ([] : List Int) else hd :: copyInto (n - 1) ms).length = 3) := by
  by_cases hn : n = 0
  · subst hn
    simp
  · simp only [copyInto, List.length_cons, List.length_append,
      List.length_take, List.length_replicate, decide_eq_true_eq, if_neg hn]
    omega

/-- C5: a `Version` produced by lax dotted sub-form B has `qv = true`
exactly when its total component count (implied leading zero included) is
3; and `Parse ".1.2"` yields components `[0, 1, 2]` with `qv = true`. -/
theorem lax_dotted_b_qv_iff :
    (∀ (d : laxDotted) (o : String),
        (d.toPerlVersionB o).qv = true ↔ (d.toPerlVersionB o).version.length = 3) ∧
    Parse ".1.2" = .ok { original := ".1.2", alpha := false, qv := true,
                         version := [0, 1, 2] } := by
  refine ⟨?_, rfl⟩
  intro d o
  exact qvLengthAux _ _ _

/-- Witness for C5: the iff at the captures of `".1.2"` (3 components,
qv) and of `".1.2.3.4"` (5 components, not qv). -/
theorem lax_dotted_b_qv_iff_witness :
    ((laxDotted.toPerlVersionB ⟨"", "", "", "", ".1.2", ""⟩ ".1.2").qv = true ↔
      (laxDotted.toPerlVersionB ⟨"", "", "", "", ".1.2", ""⟩ ".1.2").version.length = 3) ∧
    ((laxDotted.toPerlVersionB ⟨"", "", "", "", ".1.2.3.4", ""⟩ ".1.2.3.4").qv = true ↔
      (laxDotted.toPerlVersionB ⟨"", "", "", "", ".1.2.3.4", ""⟩ ".1.2.3.4").version.length = 3) :=
  ⟨lax_dotted_b_qv_iff.1 ⟨"", "", "", "", ".1.2", ""⟩ ".1.2",
   lax_dotted_b_qv_iff.1 ⟨"", "", "", "", ".1.2.3.4", ""⟩ ".1.2.3.4"⟩

/-- C1: the grammar-disambiguation algorithm of `Parse`.  When both
grammars match: if the lax span is strictly longer, lax reconstruction is
attempted, its success is returned, and its alpha-without-decimal error
falls through to strict reconstruction (the lax error does not
propagate); if the lax span is not strictly longer, strict reconstruction
is used directly.  When only the lax grammar matches, the lax result —
error included — is returned with no fallback. -/
theorem parse_disambiguation :
    (∀ (s : String) (lm : lax) (sm : strict),
        laxFind s = some lm → strictFind s = some sm →
        ((sm.original.length < lm.original.length →
            (∀ v, laxVersion lm = .ok v → Parse s = .ok v) ∧
            (laxVersion lm = .error .alphaWithoutDecimal →
              Parse s = .ok (strictVersion sm))) ∧
         (¬ sm.original.length < lm.original.length →
            Parse s = .ok (strictVersion sm)))) ∧
    (∀ (s : String) (lm : lax),
        laxFind s = some lm → strictFind s = none → Parse s = laxVersion lm) := by
  constructor
  · intro s lm sm hl hs
    have hP : Parse s =
        if sm.original.length < lm.original.length then
          match laxVersion lm with
          | .ok v => Except.ok v
          | .error _ => Except.ok (strictVersion sm)
        else Except.ok (strictVersion sm) := by
      unfold Parse
      rw [hl, hs]
    constructor
    · intro hlt
      constructor
      · intro v hv
        rw [hP, if_pos hlt, hv]
      · intro he
        rw [hP, if_pos hlt, he]
    · intro hge
      rw [hP, if_neg hge]
  · intro s lm hl hs
    unfold Parse
    rw [hl, hs]

/-- Witness for C1: at `"1_0"` both grammars match (lax spans `"1_0"`,
strict spans the suffix `"0"`), the lax span is longer, lax
reconstruction raises alpha-without-decimal, and `Parse` falls through to
the strict reconstruction of `"0"`. -/
theorem parse_disambiguation_witness :
    Parse "1_0" =
      .ok (strictVersion
        { original := "0", decimal := "0",
          decimalMatches := { integerPart := "0", fractionPart := "" },
          dotted := "", dottedMatches := { integerPart := "", dottedGroup := "" } }) :=
  ((parse_disambiguation.1 "1_0"
      { original := "1_0", undef := "", dotted := "",
        dottedMatches := laxDottedEmpty, decimal := "1_0",
        decimalMatches := { integer := "1", fraction := "", alpha := "_0",
                            secondFraction := "", secondAlpha := "" } }
      { original := "0", decimal := "0",
        decimalMatches := { integerPart := "0", fractionPart := "" },
        dotted := "", dottedMatches := { integerPart := "", dottedGroup := "" } }
      rfl rfl).1 (by decide)).2 rfl

/-- C7 counterexample: `Parse "1_0"` does not fail — it is not the
alpha-without-decimal error but a successful `Version` with original text
`"0"` and components `[0]`. -/
theorem parse_1_0_counterexample :
    Parse "1_0" ≠ .error .alphaWithoutDecimal ∧
    Parse "1_0" = .ok { original := "0", alpha := false, qv := false,
                        version := [0] } := by
  constructor
  · intro h
    have h2 : Parse "1_0" = .ok (Version.mk "0" false false [0]) := rfl
    rw [h] at h2
    exact Except.noConfusion h2
  · rfl

/-- C7 (amended): on `"1_0"` both grammars match — lax spans the whole
input, strict spans the end-anchored suffix `"0"` — the lax span is
longer, lax reconstruction raises the alpha-without-decimal error
internally, and `Parse` falls through (§4.1 step 3) to the strict
reconstruction of the suffix, succeeding with version `"0"`,
components `[0]`. -/
theorem parse_1_0_falls_through_to_strict :
    laxFind "1_0" =
      some { original := "1_0", undef := "", dotted := "",
             dottedMatches := laxDottedEmpty, decimal := "1_0",
             decimalMatches := { integer := "1", fraction := "",
                                 alpha := "_0", secondFraction := "",
                                 secondAlpha := "" } } ∧
    laxVersion
      { original := "1_0", undef := "", dotted := "",
        dottedMatches := laxDottedEmpty, decimal := "1_0",
        decimalMatches := { integer := "1", fraction := "", alpha := "_0",
                            secondFraction := "", secondAlpha := "" } } =
      .error .alphaWithoutDecimal ∧
    strictFind "1_0" =
      some { original := "0", decimal := "0",
             decimalMatches := { integerPart := "0", fractionPart := "" },
             dotted := "", dottedMatches := { integerPart := "", dottedGroup := "" } } ∧
    Parse "1_0" = .ok { original := "0", alpha := false, qv := false,
                        version := [0] } :=
  ⟨rfl, rfl, rfl, rfl⟩

/-- C3 counterexample: `Parse` succeeds on `"x1.2.3"` (the grammars are
end-anchored, not start-anchored, so they match the suffix `"1.2.3"`) but
`Raw` returns `"1.2.3"`, not the input. -/
theorem raw_roundtrip_counterexample :
    Parse "x1.2.3" = .ok (Version.mk "1.2.3" false true [1, 2, 3]) ∧
    (Version.mk "1.2.3" false true [1, 2, 3]).Raw ≠ "x1.2.3" :=
  ⟨rfl, by decide⟩

/-- Every lax capture record carries the matched text as `original`. -/
theorem matchLax_original (cs : List Char) (l : lax) (h : matchLax cs = some l) :
    l.original = ⟨cs⟩ := by
  unfold matchLax at h
  split at h
  · have h2 := Option.some.inj h
    subst h2
    rfl
  · split at h
    · have h2 := Option.some.inj h
      subst h2
      rfl
    · split at h
      · have h2 := Option.some.inj h
        subst h2
        rfl
      · exact Option.noConfusion h

/-- Every strict capture record carries the matched text as `original`. -/
theorem matchStrict_original (cs : List Char) (d : strict)
    (h : matchStrict cs = some d) : d.original = ⟨cs⟩ := by
  unfold matchStrict at h
  split at h
  · have h2 := Option.some.inj h
    subst h2
    rfl
  · split at h
    · have h2 := Option.some.inj h
      subst h2
      rfl
    · exact Option.noConfusion h

/-- A successful suffix search matched some suffix of the input. -/
theorem findMap_suffix {α : Type} (m : List Char → Option α) :
    ∀ (cs : List Char) (a : α), findMap m cs = some a →
      ∃ ds, ds <:+ cs ∧ m ds = some a := by
  intro cs
  induction cs with
  | nil => intro a h; exact ⟨[], List.suffix_refl [], h⟩
  | cons c cs ih =>
      intro a h
      unfold findMap at h
      split at h
      · rename_i a' ha'
        have h2 := Option.some.inj h
        subst h2
        exact ⟨c :: cs, List.suffix_refl _, ha'⟩
      · obtain ⟨ds, hds, hm⟩ := ih a h
        exact ⟨ds, hds.trans (List.suffix_cons c cs), hm⟩

/-- Lax dotted reconstruction keeps the passed original text. -/
theorem laxDotted_toPerlVersion_original (d : laxDotted) (o : String) :
    (d.toPerlVersion o).original = o := by
  unfold laxDotted.toPerlVersion
  split
  · rfl
  · split <;> rfl

/-- Lax decimal reconstruction keeps the passed original text on
success. -/
theorem laxDecimal_toPerlVersion_original (d : laxDecimal) (o : String)
    (v : Version) (h : d.toPerlVersion o = .ok v) : v.original = o := by
  unfold laxDecimal.toPerlVersion at h
  split at h
  · unfold laxDecimal.toPerlVersionA at h
    split at h
    · exact Except.noConfusion h
    · injection h with h2
      subst h2
      rfl
  · split at h
    · injection h with h2
      subst h2
      rfl
    · injection h with h2
      subst h2
      rfl

/-- Lax reconstruction keeps the matched text as `original` on success. -/
theorem laxVersion_original (l : lax) (v : Version)
    (h : laxVersion l = .ok v) : v.original = l.original := by
  unfold laxVersion lax.toPerlVersion at h
  split at h
  · injection h with h2
    subst h2
    rfl
  · split at h
    · injection h with h2
      subst h2
      exact laxDotted_toPerlVersion_original _ _
    · split at h
      · exact laxDecimal_toPerlVersion_original _ _ _ h
      · injection h with h2
        subst h2
        rfl

/-- Strict reconstruction keeps the matched text as `original`. -/
theorem strictVersion_original (d : strict) :
    (strictVersion d).original = d.original := by
  unfold strictVersion strict.toPerlVersion
  split
  · rfl
  · split <;> rfl

/-- C3 (amended): for every input `s` on which `Parse` succeeds, `Raw`
returns the matched span, which is a suffix of `s` (the grammars are
end-anchored only); it equals `s` exactly when the match spans the whole
input. -/
theorem raw_is_matched_suffix :
    ∀ (s : String) (v : Version), Parse s = .ok v →
      v.Raw.data <:+ s.data := by
  intro s v h
  unfold Parse at h
  cases hl : laxFind s with
  | none =>
      cases hs : strictFind s with
      | none =>
          rw [hl, hs] at h
          exact Except.noConfusion h
      | some sm =>
          rw [hl, hs] at h
          injection h with h2
          subst h2
          show (strictVersion sm).original.data <:+ s.data
          rw [strictVersion_original]
          obtain ⟨ds, hds, hm⟩ := findMap_suffix matchStrict s.data sm hs
          rw [matchStrict_original ds sm hm]
          exact hds
  | some lm =>
      have hlax : v.original = lm.original → v.original.data <:+ s.data := by
        intro he
        rw [he]
        obtain ⟨ds, hds, hm⟩ := findMap_suffix matchLax s.data lm hl
        rw [matchLax_original ds lm hm]
        exact hds
      have hstrict : ∀ sm : strict, strictFind s = some sm →
          v.original = (strictVersion sm).original → v.original.data <:+ s.data := by
        intro sm hs he
        rw [he, strictVersion_original]
        obtain ⟨ds, hds, hm⟩ := findMap_suffix matchStrict s.data sm hs
        rw [matchStrict_original ds sm hm]
        exact hds
      cases hs : strictFind s with
      | none =>
          rw [hl, hs] at h
          exact hlax (laxVersion_original lm v h)
      | some sm =>
          rw [hl, hs] at h
          have h' : (if sm.original.length < lm.original.length then
              match laxVersion lm with
              | .ok w => Except.ok w
              | .error _ => Except.ok (strictVersion sm)
            else Except.ok (strictVersion sm)) = .ok v := h
          split at h'
          · cases hv : laxVersion lm with
            | ok w =>
                rw [hv] at h'
                injection h' with h2
                have h3 : v.original = lm.original := by
                  rw [← h2]
                  exact laxVersion_original lm w hv
                exact hlax h3
            | error e =>
                rw [hv] at h'
                injection h' with h2
                subst h2
                exact hstrict sm hs rfl
          · injection h' with h2
            subst h2
            exact hstrict sm hs rfl

/-- Witness for C3 (amended): the parsed span of `"x1.2.3"` is the proper
suffix `"1.2.3"`. -/
theorem raw_is_matched_suffix_witness :
    "1.2.3".data <:+ "x1.2.3".data :=
  raw_is_matched_suffix "x1.2.3" (Version.mk "1.2.3" false true [1, 2, 3]) rfl

/-- Witness for C8: round trip at a value whose `original` is not a
parseable version string. -/
theorem codec_roundtrip_identity_witness :
    Version.UnmarshalJSON
        (Version.MarshalJSON (Version.mk "not a version" true true [7])) =
      Version.mk "not a version" true true [7] :=
  codec_roundtrip_identity (Version.mk "not a version" true true [7])
